import Mathlib

/-!
Verification of the read path of the sequel repository, a single-file
SQLite-compatible store written in Rust.  The development shallowly embeds
the storage-engine code:

* the varint codec of src/record.rs and src/main.rs,
* the record codec (serial-type header plus packed body) of src/record.rs,
  together with the older duplicate revision kept in src/main.rs,
* the table-leaf cell parser of src/database.rs,
* the three B-tree traversals of src/database.rs (full table scan, rowid-set
  fetch, index equality search), modelled over parsed B-tree pages,
* the dbinfo table counting of src/main.rs.

Bytes are modelled as natural numbers below 256; machine integers are Nat or
Int with explicit reductions where the Rust code truncates or sign-extends.
Fallible Rust functions returning anyhow results become Except-valued
functions; Rust panics (out-of-bounds indexing, usize underflow) in the
main.rs revision are modelled by a dedicated error constructor.
-/

/-- Interpret an unsigned value of the given bit width as a two's-complement
signed integer: this is what the Rust casts such as bytes[0] as i8 as i64
compute. -/
def signExtend (width : Nat) (v : Nat) : Int :=
  if v < 2 ^ (width - 1) then (v : Int) else (v : Int) - 2 ^ width

/-- Reinterpret a u64 as an i64, as in the Rust expression rowid as i64. -/
def u64ToI64 (n : Nat) : Int :=
  if n < 2 ^ 63 then (n : Int) else (n : Int) - 2 ^ 64

/-- Reinterpret an i64 as a u64, as in the Rust expression rowid as u64. -/
def i64ToU64 (i : Int) : Nat :=
  (i % (2 ^ 64 : Int)).toNat

/-- Big-endian value of a list of bytes. -/
def beVal (l : List Nat) : Nat :=
  l.foldl (fun a b => a * 256 + b) 0

/-- Big-endian two's-complement encoding of an integer in the given number of
bytes.  This is the reference encoder used to state round-trip properties of
the serial-type decoders; it is derived from the format description, not from
the repository. -/
def twosComplBE (nbytes : Nat) (v : Int) : List Nat :=
  let u := (v % ((2 ^ (8 * nbytes) : Nat) : Int)).toNat
  (List.range nbytes).map (fun i => u / 2 ^ (8 * (nbytes - 1 - i)) % 256)

/-- Byte-lexicographic comparison, the order Rust uses for str and String.
Returns true when the first argument is less than or equal to the second. -/
def strLe : List Nat → List Nat → Bool
  | [], _ => true
  | _ :: _, [] => false
  | a :: as, b :: bs => if a < b then true else if b < a then false else strLe as bs

/-! ## Varint codec

Source: read_varint in src/record.rs lines 13..46, duplicated verbatim (minus
a subsumed emptiness pre-check) in src/main.rs lines 175..200.  The loop body
uses byte & 0x7F, which equals b % 128 for every natural b, and tests
byte & 0x80 == 0, which for a byte value equals b / 128 % 2 == 0; the model
uses the arithmetic forms.  The ninth byte contributes all eight bits. -/

/-- One iteration of the read_varint loop: remaining bytes, current index i,
accumulator.  Mirrors the for loop over i in 0..9 of the source; the bail
on i >= bytes.len() is the nil case. -/
def readVarintGo : List Nat → Nat → Nat → Except String (Nat × Nat)
  | [], _, _ => .error "Unexpected end of bytes when reading varint"
  | b :: rest, i, acc =>
    if i = 8 then
      .ok (acc * 256 + b, i + 1)
    else
      let acc2 := acc * 128 + b % 128
      if b / 128 % 2 = 0 then .ok (acc2, i + 1)
      else readVarintGo rest (i + 1) acc2

/-- read_varint of src/record.rs: returns the decoded value and the number of
bytes consumed.  The source also returns the remaining slice, which equals
bytes.drop consumed; callers of the model use drop explicitly. -/
def read_varint (bytes : List Nat) : Except String (Nat × Nat) :=
  readVarintGo bytes 0 0

/-- Number of bytes the reference varint encoder uses for a value. -/
def varintLen (v : Nat) : Nat :=
  if v < 2 ^ 7 then 1
  else if v < 2 ^ 14 then 2
  else if v < 2 ^ 21 then 3
  else if v < 2 ^ 28 then 4
  else if v < 2 ^ 35 then 5
  else if v < 2 ^ 42 then 6
  else if v < 2 ^ 49 then 7
  else if v < 2 ^ 56 then 8
  else 9

/-- The known SQLite varint encoder, stated from the format description: for
values below 2 ^ 56, seven payload bits per byte with the high bit marking
continuation; otherwise eight continuation bytes carrying the high 56 bits
followed by one byte carrying the low 8 bits. -/
def encodeVarint (v : Nat) : List Nat :=
  if v < 2 ^ 56 then
    let n := varintLen v
    (List.range n).map (fun i =>
      if i + 1 = n then v % 128 else 128 + v / 2 ^ (7 * (n - 1 - i)) % 128)
  else
    ((List.range 8).map (fun i => 128 + (v / 2 ^ 8) / 2 ^ (7 * (7 - i)) % 128))
      ++ [v % 256]

theorem readVarintGo_consumed {l : List Nat} {i acc v n : Nat} (hi : i ≤ 8)
    (h : readVarintGo l i acc = .ok (v, n)) :
    i < n ∧ n ≤ 9 ∧ n - i ≤ l.length := by
  induction l generalizing i acc with
  | nil => simp [readVarintGo] at h
  | cons b rest ih =>
    simp only [readVarintGo] at h
    split at h
    · next h8 =>
      obtain ⟨rfl, rfl⟩ := by simpa using h
      simp only [List.length_cons]
      omega
    · next h8 =>
      split at h
      · obtain ⟨rfl, rfl⟩ := by simpa using h
        simp only [List.length_cons]
        omega
      · have := ih (by omega) h
        simp only [List.length_cons]
        omega

/-- A successful read_varint consumes at least one byte. -/
theorem read_varint_consumed {bytes : List Nat} {v n : Nat}
    (h : read_varint bytes = .ok (v, n)) :
    1 ≤ n ∧ n ≤ 9 ∧ n ≤ bytes.length := by
  have := readVarintGo_consumed (by omega) h
  omega

/-! ## UTF-8 validation

Rust's String::from_utf8 (used by parse_value in src/record.rs) accepts
exactly well-formed UTF-8; String::from_utf8_lossy (used by the older
parse_value in src/main.rs) replaces each maximal invalid subpart with the
replacement character U+FFFD, whose UTF-8 bytes are 239, 191, 189. -/

/-- Classify the first UTF-8 sequence of a byte list: whether it is valid and
how many bytes belong to it (for an invalid sequence, the length of its
maximal subpart).  Always consumes at least one byte of a nonempty list. -/
def utf8Step : List Nat → Bool × Nat
  | [] => (true, 0)
  | b0 :: rest =>
    let cont : Nat → Bool := fun b => 128 ≤ b && b ≤ 191
    if b0 < 128 then (true, 1)
    else if b0 < 194 then (false, 1)
    else if b0 < 224 then
      match rest with
      | b1 :: _ => if cont b1 then (true, 2) else (false, 1)
      | [] => (false, 1)
    else if b0 < 240 then
      let lowOk : Nat → Bool := fun b1 =>
        if b0 = 224 then 160 ≤ b1 && b1 ≤ 191
        else if b0 = 237 then 128 ≤ b1 && b1 ≤ 159
        else cont b1
      match rest with
      | b1 :: b2 :: _ =>
        if lowOk b1 then (if cont b2 then (true, 3) else (false, 2))
        else (false, 1)
      | [b1] => if lowOk b1 then (false, 2) else (false, 1)
      | [] => (false, 1)
    else if b0 < 245 then
      let lowOk : Nat → Bool := fun b1 =>
        if b0 = 240 then 144 ≤ b1 && b1 ≤ 191
        else if b0 = 244 then 128 ≤ b1 && b1 ≤ 143
        else cont b1
      match rest with
      | b1 :: b2 :: b3 :: _ =>
        if lowOk b1 then
          (if cont b2 then (if cont b3 then (true, 4) else (false, 3))
           else (false, 2))
        else (false, 1)
      | [b1, b2] =>
        if lowOk b1 then (if cont b2 then (false, 3) else (false, 2))
        else (false, 1)
      | [b1] => if lowOk b1 then (false, 2) else (false, 1)
      | [] => (false, 1)
    else (false, 1)

theorem utf8Step_pos (b : Nat) (l : List Nat) : 1 ≤ (utf8Step (b :: l)).2 := by
  simp only [utf8Step]
  repeat' split
  all_goals simp

theorem drop_utf8Step_lt (b : Nat) (rest : List Nat) :
    ((b :: rest).drop (utf8Step (b :: rest)).2).length < (b :: rest).length := by
  have := utf8Step_pos b rest
  simp only [List.length_drop, List.length_cons]
  omega

/-- Whether a byte list is well-formed UTF-8, as checked by String::from_utf8. -/
def utf8Valid : List Nat → Bool
  | [] => true
  | b :: rest =>
    let s := utf8Step (b :: rest)
    s.1 && utf8Valid ((b :: rest).drop s.2)
termination_by l => l.length
decreasing_by exact drop_utf8Step_lt _ _

/-- Lossy UTF-8 decoding as done by String::from_utf8_lossy, with the result
kept as the list of bytes of the decoded string. -/
def lossyUtf8 : List Nat → List Nat
  | [] => []
  | b :: rest =>
    let s := utf8Step (b :: rest)
    (if s.1 then (b :: rest).take s.2 else [239, 191, 189])
      ++ lossyUtf8 ((b :: rest).drop s.2)
termination_by l => l.length
decreasing_by exact drop_utf8Step_lt _ _

/-! ## Column values

Source: enum Value in src/record.rs lines 3..11.  Text carries the byte list
of the string (Rust String), Float carries the raw big-endian 8-byte value as
a natural number (IEEE semantics are never computed on by the repository). -/

inductive Value where
  | null
  | int (i : Int)
  | float (bits : Nat)
  | text (bytes : List Nat)
  | blob (bytes : List Nat)
deriving DecidableEq, Repr

/-! ## Serial-type value decoder, core revision

Source: parse_value in src/record.rs lines 120..242.  The signed integer
cases build the big-endian value of the consumed bytes and sign-extend it;
for example the Int24 case computes bytes[0] shifted left 16 or bytes[1]
shifted left 8 or bytes[2] and then ors with the complement of 0xFFFFFF when
bit 23 is set, which equals signExtend 24 of the 3-byte big-endian value. -/

def parse_value (serial_type : Nat) (bytes : List Nat) :
    Except String (Value × Nat) :=
  match serial_type with
  | 0 => .ok (.null, 0)
  | 1 =>
    if bytes.length < 1 then .error "Not enough data for Int8"
    else .ok (.int (signExtend 8 (beVal (bytes.take 1))), 1)
  | 2 =>
    if bytes.length < 2 then .error "Not enough data for Int16"
    else .ok (.int (signExtend 16 (beVal (bytes.take 2))), 2)
  | 3 =>
    if bytes.length < 3 then .error "Not enough data for Int24"
    else .ok (.int (signExtend 24 (beVal (bytes.take 3))), 3)
  | 4 =>
    if bytes.length < 4 then .error "Not enough data for Int32"
    else .ok (.int (signExtend 32 (beVal (bytes.take 4))), 4)
  | 5 =>
    if bytes.length < 6 then .error "Not enough data for Int48"
    else .ok (.int (signExtend 48 (beVal (bytes.take 6))), 6)
  | 6 =>
    if bytes.length < 8 then .error "Not enough data for Int64"
    else .ok (.int (signExtend 64 (beVal (bytes.take 8))), 8)
  | 7 =>
    if bytes.length < 8 then .error "Not enough data for Float64"
    else .ok (.float (beVal (bytes.take 8)), 8)
  | 8 => .ok (.int 0, 0)
  | 9 => .ok (.int 1, 0)
  | st =>
    if st = 10 || st = 11 then .error "Reserved serial type encountered"
    else if st < 12 then .error "Unknown or unhandled serial type"
    else
      let len := (st - (if st % 2 = 0 then 12 else 13)) / 2
      if bytes.length < len then .error "Not enough data for Blob or Text"
      else if st % 2 = 0 then .ok (.blob (bytes.take len), len)
      else if utf8Valid (bytes.take len) then .ok (.text (bytes.take len), len)
      else .error "Invalid UTF-8 sequence for Text"

/-! ## Serial-type value decoder, older main.rs revision

Source: parse_value in src/main.rs lines 244..299.  This revision has no
bounds checks (out-of-range indexing panics in Rust, modelled by the crash
constructor), sign-extends Int24 by oring with 0xFFFFFF000000 (leaving bits
48..63 clear), and for serial type 5 copies only five bytes into positions
3..8 of an eight-byte buffer and shifts the value right by 24, consuming five
bytes. -/

inductive MainErr where
  | err (msg : String)
  | crash
deriving DecidableEq, Repr

def main_parse_value (serial_type : Nat) (bytes : List Nat) :
    Except MainErr (Value × Nat) :=
  match serial_type with
  | 0 => .ok (.null, 0)
  | 1 =>
    if bytes.length < 1 then .error .crash
    else .ok (.int (signExtend 8 (beVal (bytes.take 1))), 1)
  | 2 =>
    if bytes.length < 2 then .error .crash
    else .ok (.int (signExtend 16 (beVal (bytes.take 2))), 2)
  | 3 =>
    if bytes.length < 3 then .error .crash
    else
      let value := beVal (bytes.take 3)
      if 2 ^ 23 ≤ value then .ok (.int ((value : Int) + 0xFFFFFF000000), 3)
      else .ok (.int (value : Int), 3)
  | 4 =>
    if bytes.length < 4 then .error .crash
    else .ok (.int (signExtend 32 (beVal (bytes.take 4))), 4)
  | 5 =>
    if bytes.length < 5 then .error .crash
    else .ok (.int ((beVal (bytes.take 5) : Int) / 2 ^ 24), 5)
  | 6 =>
    if bytes.length < 8 then .error .crash
    else .ok (.int (signExtend 64 (beVal (bytes.take 8))), 8)
  | 7 =>
    if bytes.length < 8 then .error .crash
    else .ok (.float (beVal (bytes.take 8)), 8)
  | 8 => .ok (.int 0, 0)
  | 9 => .ok (.int 1, 0)
  | st =>
    if st % 2 = 0 then
      if st < 12 then .error .crash
      else
        let len := (st - 12) / 2
        if bytes.length < len then .error .crash
        else .ok (.blob (bytes.take len), len)
    else
      if st < 13 then .error .crash
      else
        let len := (st - 13) / 2
        if bytes.length < len then .error .crash
        else .ok (.text (lossyUtf8 (bytes.take len)), len)

/-! ## Record codec, core revision

Source: parse_record in src/record.rs lines 48..118.  The leading varint K is
the total header size including its own L bytes; the serial-type varints
occupy the region from L to K; the body follows. -/

/-- The while loop of parse_record reading serial-type varints until the
serial-types section is exhausted.  The source also bails when a varint
consumed zero bytes, which read_varint never does; since a successful
read_varint consumes at least one byte (read_varint_consumed), advancing the
scan position by n on b :: rest is the same as keeping rest and advancing by
n - 1, which is the recursion used here. -/
def readSerialTypes : List Nat → Except String (List Nat)
  | [] => .ok []
  | b :: rest =>
    match read_varint (b :: rest) with
    | .error e => .error e
    | .ok (st, n) =>
      match readSerialTypes (rest.drop (n - 1)) with
      | .error e => .error e
      | .ok sts => .ok (st :: sts)
termination_by data => data.length
decreasing_by
  simp only [List.length_drop, List.length_cons]
  omega

/-- The body walk of parse_record: decode one value per serial type, advancing
the body cursor by the bytes each value consumed.  The source pushes the value
and then bails if the reported consumption exceeds the remaining body, which
discards everything already pushed, so checking first is equivalent. -/
def parseBody : List Nat → List Nat → Except String (List Value)
  | [], _ => .ok []
  | st :: rest, body =>
    match parse_value st body with
    | .error e => .error e
    | .ok (v, m) =>
      if m > body.length then
        .error "Value parser consumed more bytes than remain in body"
      else
        match parseBody rest (body.drop m) with
        | .error e => .error e
        | .ok vs => .ok (v :: vs)

def parse_record (record_payload : List Nat) : Except String (List Value) :=
  match read_varint record_payload with
  | .error e => .error e
  | .ok (k, l) =>
    if k < l then
      .error "Record total header size K is less than the size of K varint L"
    else
      let serial_types_section_len := k - l
      let cursor_after_k_varint := record_payload.drop l
      if serial_types_section_len > cursor_after_k_varint.length then
        .error "Declared serial types section length greater than remaining data"
      else
        match readSerialTypes (cursor_after_k_varint.take serial_types_section_len) with
        | .error e => .error e
        | .ok sts => parseBody sts (cursor_after_k_varint.drop serial_types_section_len)

/-! ## Record codec, older main.rs revision

Source: parse_record in src/main.rs lines 211..242.  This revision assumes
the K varint occupies one byte: it sets header_end to header_size - 1, a
usize subtraction that panics when header_size is zero, and slices
data[..header_end] without a bounds check, which panics when header_end
exceeds the remaining length.  Serial type zero is special-cased to Null
without calling parse_value; other types call the unchecked main.rs
parse_value on data[current_pos..], which panics when current_pos exceeds
the length. -/

/-- The serial-type loop of the main.rs parse_record; identical in effect to
readSerialTypes but wrapping varint failures in the main.rs error type. -/
def mainReadSerialTypes : List Nat → Except MainErr (List Nat)
  | [] => .ok []
  | b :: rest =>
    match read_varint (b :: rest) with
    | .error e => .error (.err e)
    | .ok (st, n) =>
      match mainReadSerialTypes (rest.drop (n - 1)) with
      | .error e => .error e
      | .ok sts => .ok (st :: sts)
termination_by data => data.length
decreasing_by
  simp only [List.length_drop, List.length_cons]
  omega

/-- The body walk of the main.rs parse_record, with the cursor kept as a
position into the data slice as in the source. -/
def mainWalkBody (data : List Nat) : Nat → List Nat → Except MainErr (List Value)
  | _, [] => .ok []
  | pos, st :: rest =>
    if st = 0 then
      match mainWalkBody data pos rest with
      | .error e => .error e
      | .ok vs => .ok (.null :: vs)
    else
      if data.length < pos then .error .crash
      else
        match main_parse_value st (data.drop pos) with
        | .error e => .error e
        | .ok (v, m) =>
          match mainWalkBody data (pos + m) rest with
          | .error e => .error e
          | .ok vs => .ok (v :: vs)

def main_parse_record (bytes : List Nat) : Except MainErr (List Value) :=
  match read_varint bytes with
  | .error e => .error (.err e)
  | .ok (header_size, n) =>
    let data := bytes.drop n
    if header_size = 0 then .error .crash
    else
      let header_end := header_size - 1
      if data.length < header_end then .error .crash
      else
        match mainReadSerialTypes (data.take header_end) with
        | .error e => .error e
        | .ok column_types => mainWalkBody data header_end column_types

/-! ## Table-leaf cell parser

Source: TableBTreeLeafCell::parse in src/database.rs lines 89..138.  After the
payload-size and rowid varints it requires the declared payload to lie within
the remaining slice, copies exactly payload_size bytes, and reads a trailing
four-byte big-endian value as an overflow page number when present and
non-zero. -/

structure TableLeafCell where
  payload_size : Nat
  rowid : Nat
  payload : List Nat
  overflow_page : Option Nat
deriving DecidableEq, Repr

def tableLeafCellParse (data : List Nat) : Except String (TableLeafCell × Nat) :=
  match read_varint data with
  | .error _ => .error "Failed to read payload size varint"
  | .ok (payload_size, n1) =>
    let rest1 := data.drop n1
    match read_varint rest1 with
    | .error _ => .error "Failed to read rowid varint"
    | .ok (rowid, n2) =>
      let rest := rest1.drop n2
      if rest.length < payload_size then
        .error "Not enough data for payload"
      else
        let payload := rest.take payload_size
        let overflow_page :=
          if payload_size + 4 ≤ rest.length then
            let overflow_value := beVal ((rest.drop payload_size).take 4)
            if overflow_value ≠ 0 then some overflow_value else none
          else none
        .ok ({ payload_size := payload_size, rowid := rowid,
               payload := payload, overflow_page := overflow_page },
             n1 + n2 + payload_size + (if overflow_page.isSome then 4 else 0))

/-! ## Schema catalogue and dbinfo counting

Source: struct SchemaEntry and read_schema in src/main.rs lines 86..162 and
handle_dbinfo in src/main.rs lines 33..49.  handle_dbinfo iterates the schema
entries and increments a counter for every entry whose type is the string
table; there is no filtering on the table name. -/

structure SchemaEntry where
  typ : String
  tbl_name : String
  rootpage : Nat
deriving DecidableEq, Repr

/-- The number of tables printed by handle_dbinfo: the counting loop of
src/main.rs lines 38..45, with the mutable counter as a fold accumulator. -/
def handle_dbinfo_tables (schema : List SchemaEntry) : Nat :=
  schema.foldl (fun num_tables entry =>
    if entry.typ = "table" then num_tables + 1 else num_tables) 0

/-- Modelled from the spec: the count the claim describes, namely schema
entries of type table whose tbl_name does not start with sqlite_.  Stated for
comparison with handle_dbinfo_tables; it is not code of the repository. -/
def specUserTableCount (schema : List SchemaEntry) : Nat :=
  (schema.filter (fun entry =>
    entry.typ = "table" && !(List.isPrefixOf "sqlite_".data entry.tbl_name.data))).length

/-! ## Parsed B-tree pages

The traversals of src/database.rs read pages through the pager, parse the
page header and cells, and walk children through an explicit stack, pushing
the collected child pages in reverse so they are visited left to right
(src/database.rs lines 389..391, 515..517, 602..604).  The model represents
an already-parsed page tree: a leaf holds its parsed cells in cell-pointer
order and an interior page holds its parsed cells (left child plus key) in
cell-pointer order together with the child of the right-most pointer.  Table
leaf cell payloads and index cell payloads appear as their decoded records,
since every traversal immediately parses them with parse_record.  The
stack-with-reversed-pushes loop of the source visits, at an interior page,
the kept children left to right and then the right-most child, which is
exactly the recursion below; a page whose type does not belong to the B-tree
being walked makes the traversal fail as in the source match arms. -/

mutual
inductive Page where
  | tableLeaf (cells : List (Nat × List Value))
  | tableInterior (cells : TIntCells) (rightMost : Page)
  | indexLeaf (cells : List (List Value))
  | indexInterior (cells : IIntCells) (rightMost : Page)

/-- Cells of a table interior page: left child page and rowid, in order. -/
inductive TIntCells where
  | nil
  | cons (child : Page) (rowid : Nat) (rest : TIntCells)

/-- Cells of an index interior page: left child page and payload record. -/
inductive IIntCells where
  | nil
  | cons (child : Page) (record : List Value) (rest : IIntCells)
end

def TIntCells.length : TIntCells → Nat
  | .nil => 0
  | .cons _ _ rest => rest.length + 1

def IIntCells.length : IIntCells → Nat
  | .nil => 0
  | .cons _ _ rest => rest.length + 1

/-- The cell count stored in the B-tree page header of the root page, the
number handle_count in src/main.rs lines 66..84 prints: it reads the
big-endian u16 at offsets 3..5 of the page header, which is the number of
cells on that single page. -/
def rootPageCellCount : Page → Nat
  | .tableLeaf cells => cells.length
  | .tableInterior cells _ => cells.length
  | .indexLeaf cells => cells.length
  | .indexInterior cells _ => cells.length

mutual
/-- All table-leaf cells reachable from a page, depth first, left to right;
the rows of the table in traversal order. -/
def pageTableCells : Page → List (Nat × List Value)
  | .tableLeaf cells => cells
  | .tableInterior cells rightMost => tcellsTableCells cells ++ pageTableCells rightMost
  | .indexLeaf _ => []
  | .indexInterior _ _ => []

def tcellsTableCells : TIntCells → List (Nat × List Value)
  | .nil => []
  | .cons child _ rest => pageTableCells child ++ tcellsTableCells rest
end

/-! ## Full table scan

Source: collect_leaf_pages (src/database.rs lines 346..401) collects every
table-leaf page reachable from the root, visiting at each interior page every
left child in cell order and then the right-most child, and failing on any
other page type; read_table_records (lines 403..440) then emits, per leaf
page in that order, one row per cell with the rowid prepended as an Int. -/

mutual
def readTableRecordsPage : Page → Except String (List (List Value))
  | .tableLeaf cells =>
    .ok (cells.map (fun c => .int (u64ToI64 c.1) :: c.2))
  | .tableInterior cells rightMost =>
    match readTableRecordsCells cells with
    | .error e => .error e
    | .ok a =>
      match readTableRecordsPage rightMost with
      | .error e => .error e
      | .ok b => .ok (a ++ b)
  | .indexLeaf _ => .error "Unexpected page type for table B-tree"
  | .indexInterior _ _ => .error "Unexpected page type for table B-tree"

def readTableRecordsCells : TIntCells → Except String (List (List Value))
  | .nil => .ok []
  | .cons child _ rest =>
    match readTableRecordsPage child with
    | .error e => .error e
    | .ok a =>
      match readTableRecordsCells rest with
      | .error e => .error e
      | .ok b => .ok (a ++ b)
end

/-! ## Rowid-set fetch

Source: read_table_records_by_rowids in src/database.rs lines 530..614.  An
empty target list returns no rows at once.  At a table leaf, rows whose rowid
lies in the target set are emitted with the rowid prepended; at a table
interior, the left child of every cell whose rowid is at least the minimum
target is visited in order, then the right-most child; other page types fail.
The source computes the minimum of the target slice at every interior page
with unwrap_or(0); the value never changes during the walk. -/

mutual
def readByRowidsPage (target_rowids : List Nat) : Page → Except String (List (List Value))
  | .tableLeaf cells =>
    .ok ((cells.filter (fun c => target_rowids.contains c.1)).map
      (fun c => .int (u64ToI64 c.1) :: c.2))
  | .tableInterior cells rightMost =>
    match readByRowidsCells target_rowids ((target_rowids.min?).getD 0) cells with
    | .error e => .error e
    | .ok a =>
      match readByRowidsPage target_rowids rightMost with
      | .error e => .error e
      | .ok b => .ok (a ++ b)
  | .indexLeaf _ => .error "Unexpected page type for table B-tree"
  | .indexInterior _ _ => .error "Unexpected page type for table B-tree"

def readByRowidsCells (target_rowids : List Nat) (min_target : Nat) :
    TIntCells → Except String (List (List Value))
  | .nil => .ok []
  | .cons child rowid rest =>
    if min_target ≤ rowid then
      match readByRowidsPage target_rowids child with
      | .error e => .error e
      | .ok a =>
        match readByRowidsCells target_rowids min_target rest with
        | .error e => .error e
        | .ok b => .ok (a ++ b)
    else readByRowidsCells target_rowids min_target rest
end

def read_table_records_by_rowids (root : Page) (target_rowids : List Nat) :
    Except String (List (List Value)) :=
  if target_rowids.isEmpty then .ok []
  else readByRowidsPage target_rowids root

/-! ## Index equality search

Source: collect_index_rowids in src/database.rs lines 442..528.  At an index
leaf, every cell whose record has at least two columns with the first a Text
equal to the target contributes its second column as a rowid (cast to u64);
shorter records and other variants are passed over without error.  At an
index interior, the left child of every cell whose record starts with a Text
key k with target less than or equal to k is visited in order, then the
right-most child; other page types fail.  The collected rowids are sorted
ascending before being returned (Vec sort, modelled by insertion sort, which
produces the same list for a total order). -/

/-- Per-cell match of the index-leaf loop, src/database.rs lines 474..482. -/
def cellMatch (target : List Nat) (record : List Value) : Option Nat :=
  match record with
  | .text country :: .int rowid :: _ =>
    if country = target then some (i64ToU64 rowid) else none
  | _ => none

/-- The index-leaf loop: rowids of matching cells in cell order. -/
def indexLeafMatches (target : List Nat) (cells : List (List Value)) : List Nat :=
  cells.filterMap (cellMatch target)

/-- The descent test of the index-interior loop, src/database.rs lines
502..508: the record must have at least one column, the first column must be
Text, and the target must compare less than or equal to it. -/
def shouldDescend (target : List Nat) (record : List Value) : Bool :=
  match record with
  | .text country :: _ => strLe target country
  | _ => false

mutual
def collectIndexPage (target : List Nat) : Page → Except String (List Nat)
  | .indexLeaf cells => .ok (indexLeafMatches target cells)
  | .indexInterior cells rightMost =>
    match collectIndexCells target cells with
    | .error e => .error e
    | .ok a =>
      match collectIndexPage target rightMost with
      | .error e => .error e
      | .ok b => .ok (a ++ b)
  | .tableLeaf _ => .error "Unexpected page type for index B-tree"
  | .tableInterior _ _ => .error "Unexpected page type for index B-tree"

def collectIndexCells (target : List Nat) : IIntCells → Except String (List Nat)
  | .nil => .ok []
  | .cons child record rest =>
    if shouldDescend target record then
      match collectIndexPage target child with
      | .error e => .error e
      | .ok a =>
        match collectIndexCells target rest with
        | .error e => .error e
        | .ok b => .ok (a ++ b)
    else collectIndexCells target rest
end

def collect_index_rowids (root : Page) (target : List Nat) :
    Except String (List Nat) :=
  match collectIndexPage target root with
  | .error e => .error e
  | .ok rowids => .ok (rowids.insertionSort (· ≤ ·))

/-! ## Properties of the varint codec -/

/-- Whether an Except result is an error. -/
def isErr : Except ε α → Bool
  | .error _ => true
  | .ok _ => false

theorem isErr_iff {x : Except ε α} : isErr x = true ↔ ∃ e, x = .error e := by
  cases x <;> simp [isErr]

/-- Decoding a block of continuation bytes (high bit set, payload below 128)
folds the payloads into the accumulator, seven bits at a time. -/
theorem readVarintGo_cont (gs : List Nat) (rest : List Nat) (i acc : Nat)
    (hg : ∀ g ∈ gs, g < 128) (hlen : i + gs.length ≤ 8) :
    readVarintGo (gs.map (fun g => 128 + g) ++ rest) i acc =
      readVarintGo rest (i + gs.length)
        (gs.foldl (fun a g => a * 128 + g) acc) := by
  induction gs generalizing i acc with
  | nil => simp
  | cons g gs ih =>
    have hglt : g < 128 := hg g (by simp)
    simp only [List.length_cons] at hlen
    simp only [List.map_cons, List.cons_append, readVarintGo]
    rw [if_neg (show ¬ i = 8 by omega)]
    rw [if_neg (show ¬ (128 + g) / 128 % 2 = 0 by omega)]
    have hmod : (128 + g) % 128 = g := by omega
    rw [hmod]
    simp only [List.append_eq]
    rw [ih (i + 1) (acc * 128 + g) (fun x hx => hg x (List.mem_cons_of_mem _ hx))
        (by omega)]
    simp only [List.foldl_cons, List.length_cons]
    congr 1
    omega

/-- Characterisation of varint decoding failure: the loop fails exactly when
fewer than nine bytes remain past the current index and every remaining byte
has its high bit set. -/
theorem readVarintGo_isErr (l : List Nat) (i acc : Nat) (hi : i ≤ 8) :
    isErr (readVarintGo l i acc) = true ↔
      (l.length + i ≤ 8 ∧ ∀ b ∈ l, b / 128 % 2 ≠ 0) := by
  induction l generalizing i acc with
  | nil =>
    simp [readVarintGo, isErr]
    omega
  | cons b rest ih =>
    simp only [readVarintGo]
    by_cases h8 : i = 8
    · rw [if_pos h8]
      constructor
      · intro h
        simp [isErr] at h
      · rintro ⟨h1, _⟩
        exact absurd h1 (by simp only [List.length_cons]; omega)
    · rw [if_neg h8]
      by_cases hterm : b / 128 % 2 = 0
      · rw [if_pos hterm]
        constructor
        · intro h
          simp [isErr] at h
        · rintro ⟨_, h2⟩
          exact absurd hterm (h2 b (by simp))
      · rw [if_neg hterm]
        rw [ih (i + 1) (acc * 128 + b % 128) (by omega)]
        constructor
        · rintro ⟨h1, h2⟩
          refine ⟨by simp only [List.length_cons]; omega, fun x hx => ?_⟩
          rcases List.mem_cons.mp hx with rfl | hx2
          · exact hterm
          · exact h2 x hx2
        · rintro ⟨h1, h2⟩
          simp only [List.length_cons] at h1
          exact ⟨by omega, fun x hx => h2 x (List.mem_cons_of_mem _ hx)⟩

/-- Finishing step for decoding an encoded varint of at most eight bytes:
continuation bytes followed by one terminating byte. -/
theorem readVarintGo_decode_small (v : Nat) (gs : List Nat)
    (hg : ∀ g ∈ gs, g < 128) (hlen : gs.length ≤ 7)
    (hval : (gs.foldl (fun a g => a * 128 + g) 0) * 128 + v % 128 = v) :
    readVarintGo (gs.map (fun g => 128 + g) ++ [v % 128]) 0 0 =
      .ok (v, gs.length + 1) := by
  rw [readVarintGo_cont gs [v % 128] 0 0 hg (by omega)]
  simp only [readVarintGo]
  rw [if_neg (by omega), if_pos (by omega)]
  simp only [Except.ok.injEq, Prod.mk.injEq]
  constructor
  · omega
  · omega

set_option maxHeartbeats 1000000 in
/-- Decoding the known encoding of any value below 2 ^ 64 returns the value
and consumes the whole encoding. -/
theorem read_varint_encodeVarint (v : Nat) (hv : v < 2 ^ 64) :
    read_varint (encodeVarint v) = .ok (v, (encodeVarint v).length) := by
  by_cases c1 : v < 128
  · have he : encodeVarint v =
        List.map (fun g => 128 + g) [] ++ [v % 128] := by
      norm_num [encodeVarint, varintLen, List.range_succ, c1]
      intro h
      exact absurd h (by omega)
    rw [he, read_varint,
      readVarintGo_decode_small v []
        (by simp) (by simp)
        (by simp only [List.foldl_nil]; omega)]
    simp
  ·
    by_cases c2 : v < 16384
    · have he : encodeVarint v =
          List.map (fun g => 128 + g) [v / 2 ^ 7 % 128] ++ [v % 128] := by
        norm_num [encodeVarint, varintLen, List.range_succ, c2, c1]
        intro h
        exact absurd h (by omega)
      rw [he, read_varint,
        readVarintGo_decode_small v [v / 2 ^ 7 % 128]
          (by simp; omega) (by simp)
          (by simp only [List.foldl_cons, List.foldl_nil]; omega)]
      simp
    ·
      by_cases c3 : v < 2097152
      · have he : encodeVarint v =
            List.map (fun g => 128 + g) [v / 2 ^ 14 % 128, v / 2 ^ 7 % 128] ++ [v % 128] := by
          norm_num [encodeVarint, varintLen, List.range_succ, c3, c1, c2]
          intro h
          exact absurd h (by omega)
        rw [he, read_varint,
          readVarintGo_decode_small v [v / 2 ^ 14 % 128, v / 2 ^ 7 % 128]
            (by simp; omega) (by simp)
            (by simp only [List.foldl_cons, List.foldl_nil]; omega)]
        simp
      ·
        by_cases c4 : v < 268435456
        · have he : encodeVarint v =
              List.map (fun g => 128 + g) [v / 2 ^ 21 % 128, v / 2 ^ 14 % 128, v / 2 ^ 7 % 128] ++ [v % 128] := by
            norm_num [encodeVarint, varintLen, List.range_succ, c4, c1, c2, c3]
            intro h
            exact absurd h (by omega)
          rw [he, read_varint,
            readVarintGo_decode_small v [v / 2 ^ 21 % 128, v / 2 ^ 14 % 128, v / 2 ^ 7 % 128]
              (by simp; omega) (by simp)
              (by simp only [List.foldl_cons, List.foldl_nil]; omega)]
          simp
        ·
          by_cases c5 : v < 34359738368
          · have he : encodeVarint v =
                List.map (fun g => 128 + g) [v / 2 ^ 28 % 128, v / 2 ^ 21 % 128, v / 2 ^ 14 % 128, v / 2 ^ 7 % 128] ++ [v % 128] := by
              norm_num [encodeVarint, varintLen, List.range_succ, c5, c1, c2, c3, c4]
              intro h
              exact absurd h (by omega)
            rw [he, read_varint,
              readVarintGo_decode_small v [v / 2 ^ 28 % 128, v / 2 ^ 21 % 128, v / 2 ^ 14 % 128, v / 2 ^ 7 % 128]
                (by simp; omega) (by simp)
                (by simp only [List.foldl_cons, List.foldl_nil]; omega)]
            simp
          ·
            by_cases c6 : v < 4398046511104
            · have he : encodeVarint v =
                  List.map (fun g => 128 + g) [v / 2 ^ 35 % 128, v / 2 ^ 28 % 128, v / 2 ^ 21 % 128, v / 2 ^ 14 % 128, v / 2 ^ 7 % 128] ++ [v % 128] := by
                norm_num [encodeVarint, varintLen, List.range_succ, c6, c1, c2, c3, c4, c5]
                intro h
                exact absurd h (by omega)
              rw [he, read_varint,
                readVarintGo_decode_small v [v / 2 ^ 35 % 128, v / 2 ^ 28 % 128, v / 2 ^ 21 % 128, v / 2 ^ 14 % 128, v / 2 ^ 7 % 128]
                  (by simp; omega) (by simp)
                  (by simp only [List.foldl_cons, List.foldl_nil]; omega)]
              simp
            ·
              by_cases c7 : v < 562949953421312
              · have he : encodeVarint v =
                    List.map (fun g => 128 + g) [v / 2 ^ 42 % 128, v / 2 ^ 35 % 128, v / 2 ^ 28 % 128, v / 2 ^ 21 % 128, v / 2 ^ 14 % 128, v / 2 ^ 7 % 128] ++ [v % 128] := by
                  norm_num [encodeVarint, varintLen, List.range_succ, c7, c1, c2, c3, c4, c5, c6]
                  intro h
                  exact absurd h (by omega)
                rw [he, read_varint,
                  readVarintGo_decode_small v [v / 2 ^ 42 % 128, v / 2 ^ 35 % 128, v / 2 ^ 28 % 128, v / 2 ^ 21 % 128, v / 2 ^ 14 % 128, v / 2 ^ 7 % 128]
                    (by simp; omega) (by simp)
                    (by simp only [List.foldl_cons, List.foldl_nil]; omega)]
                simp
              ·
                by_cases c8 : v < 72057594037927936
                · have he : encodeVarint v =
                      List.map (fun g => 128 + g) [v / 2 ^ 49 % 128, v / 2 ^ 42 % 128, v / 2 ^ 35 % 128, v / 2 ^ 28 % 128, v / 2 ^ 21 % 128, v / 2 ^ 14 % 128, v / 2 ^ 7 % 128] ++ [v % 128] := by
                    norm_num [encodeVarint, varintLen, List.range_succ, c8, c1, c2, c3, c4, c5, c6, c7]
                  rw [he, read_varint,
                    readVarintGo_decode_small v [v / 2 ^ 49 % 128, v / 2 ^ 42 % 128, v / 2 ^ 35 % 128, v / 2 ^ 28 % 128, v / 2 ^ 21 % 128, v / 2 ^ 14 % 128, v / 2 ^ 7 % 128]
                      (by simp; omega) (by simp)
                      (by simp only [List.foldl_cons, List.foldl_nil]; omega)]
                  simp
                ·
                  have he : encodeVarint v =
                      List.map (fun g => 128 + g)
                        [v / 2 ^ 8 / 2 ^ 49 % 128, v / 2 ^ 8 / 2 ^ 42 % 128, v / 2 ^ 8 / 2 ^ 35 % 128, v / 2 ^ 8 / 2 ^ 28 % 128, v / 2 ^ 8 / 2 ^ 21 % 128, v / 2 ^ 8 / 2 ^ 14 % 128, v / 2 ^ 8 / 2 ^ 7 % 128, v / 2 ^ 8 / 2 ^ 0 % 128]
                        ++ [v % 256] := by
                    norm_num [encodeVarint, List.range_succ, c8]
                  rw [he, read_varint]
                  rw [readVarintGo_cont _ [v % 256] 0 0 (by simp; omega) (by simp)]
                  simp only [readVarintGo, List.foldl_cons, List.foldl_nil,
                    List.length_cons, List.length_nil, List.length_map, List.length_append]
                  rw [if_pos (by simp)]
                  simp only [Except.ok.injEq, Prod.mk.injEq]
                  constructor
                  · omega
                  · simp

/-- C7: for every byte slice, the varint decoder reads at most 9 bytes and
returns a bytes_consumed in 1..=9 bounded by the slice length; it fails
exactly when the slice ends (within the first eight positions) before a byte
with clear high bit or a ninth byte is available; and decoding the known
encoding of any v below 2 ^ 64 yields v, consuming the whole encoding. -/
theorem claim7_read_varint_spec :
    (∀ (bytes : List Nat) (v n : Nat), read_varint bytes = .ok (v, n) →
      1 ≤ n ∧ n ≤ 9 ∧ n ≤ bytes.length)
    ∧ (∀ v : Nat, v < 2 ^ 64 →
      read_varint (encodeVarint v) = .ok (v, (encodeVarint v).length))
    ∧ (∀ bytes : List Nat, (∀ b ∈ bytes, b < 256) →
      (isErr (read_varint bytes) = true ↔
        bytes.length ≤ 8 ∧ ∀ b ∈ bytes, 128 ≤ b)) := by
  refine ⟨fun bytes v n h => read_varint_consumed h,
    fun v hv => read_varint_encodeVarint v hv,
    fun bytes hb => ?_⟩
  rw [read_varint, readVarintGo_isErr bytes 0 0 (by omega)]
  constructor
  · rintro ⟨h1, h2⟩
    exact ⟨by omega, fun b hmem => by have := hb b hmem; have := h2 b hmem; omega⟩
  · rintro ⟨h1, h2⟩
    exact ⟨by omega, fun b hmem => by have := hb b hmem; have := h2 b hmem; omega⟩

/-- Witness for C7 at concrete inputs: the encoding of 300 decodes back to
300 consuming two bytes, and a two-byte slice of continuation bytes fails. -/
theorem claim7_read_varint_spec_witness :
    read_varint (encodeVarint 300) = .ok (300, (encodeVarint 300).length)
    ∧ (isErr (read_varint [200, 200]) = true ↔
      ([200, 200] : List Nat).length ≤ 8 ∧ ∀ b ∈ ([200, 200] : List Nat), 128 ≤ b) :=
  ⟨claim7_read_varint_spec.2.1 300 (by norm_num),
   claim7_read_varint_spec.2.2 [200, 200]
     (by intro b hb; rcases List.mem_cons.mp hb with rfl | hb2
         · omega
         · rcases List.mem_cons.mp hb2 with rfl | hb3
           · omega
           · exact absurd hb3 (List.not_mem_nil b))⟩

/-! ## Round trips of the signed serial-type decoders -/

theorem parse_value_round_1 (v : Int)
    (h1 : -(2 ^ 7) ≤ v) (h2 : v < 2 ^ 7) :
    parse_value 1 (twosComplBE 1 v) = .ok (.int v, 1) := by
  have hlen : (twosComplBE 1 v).length = 1 := by simp [twosComplBE]
  simp only [parse_value]
  rw [if_neg (by omega)]
  rw [List.take_of_length_le (le_of_eq hlen)]
  have hb : beVal (twosComplBE 1 v) = (v % ((256 : Nat) : Int)).toNat := by
    simp [twosComplBE, beVal, List.range_succ]
    omega
  rw [hb]
  simp only [signExtend, Except.ok.injEq, Prod.mk.injEq, Value.int.injEq]
  refine ⟨?_, by trivial⟩
  split <;> omega

theorem parse_value_round_2 (v : Int)
    (h1 : -(2 ^ 15) ≤ v) (h2 : v < 2 ^ 15) :
    parse_value 2 (twosComplBE 2 v) = .ok (.int v, 2) := by
  have hlen : (twosComplBE 2 v).length = 2 := by simp [twosComplBE]
  simp only [parse_value]
  rw [if_neg (by omega)]
  rw [List.take_of_length_le (le_of_eq hlen)]
  have hb : beVal (twosComplBE 2 v) = (v % ((65536 : Nat) : Int)).toNat := by
    simp [twosComplBE, beVal, List.range_succ]
    omega
  rw [hb]
  simp only [signExtend, Except.ok.injEq, Prod.mk.injEq, Value.int.injEq]
  refine ⟨?_, by trivial⟩
  split <;> omega

theorem parse_value_round_3 (v : Int)
    (h1 : -(2 ^ 23) ≤ v) (h2 : v < 2 ^ 23) :
    parse_value 3 (twosComplBE 3 v) = .ok (.int v, 3) := by
  have hlen : (twosComplBE 3 v).length = 3 := by simp [twosComplBE]
  simp only [parse_value]
  rw [if_neg (by omega)]
  rw [List.take_of_length_le (le_of_eq hlen)]
  have hb : beVal (twosComplBE 3 v) = (v % ((16777216 : Nat) : Int)).toNat := by
    simp [twosComplBE, beVal, List.range_succ]
    omega
  rw [hb]
  simp only [signExtend, Except.ok.injEq, Prod.mk.injEq, Value.int.injEq]
  refine ⟨?_, by trivial⟩
  split <;> omega

theorem parse_value_round_4 (v : Int)
    (h1 : -(2 ^ 31) ≤ v) (h2 : v < 2 ^ 31) :
    parse_value 4 (twosComplBE 4 v) = .ok (.int v, 4) := by
  have hlen : (twosComplBE 4 v).length = 4 := by simp [twosComplBE]
  simp only [parse_value]
  rw [if_neg (by omega)]
  rw [List.take_of_length_le (le_of_eq hlen)]
  have hb : beVal (twosComplBE 4 v) = (v % ((4294967296 : Nat) : Int)).toNat := by
    simp [twosComplBE, beVal, List.range_succ]
    omega
  rw [hb]
  simp only [signExtend, Except.ok.injEq, Prod.mk.injEq, Value.int.injEq]
  refine ⟨?_, by trivial⟩
  split <;> omega

theorem parse_value_round_5 (v : Int)
    (h1 : -(2 ^ 47) ≤ v) (h2 : v < 2 ^ 47) :
    parse_value 5 (twosComplBE 6 v) = .ok (.int v, 6) := by
  have hlen : (twosComplBE 6 v).length = 6 := by simp [twosComplBE]
  simp only [parse_value]
  rw [if_neg (by omega)]
  rw [List.take_of_length_le (le_of_eq hlen)]
  have hb : beVal (twosComplBE 6 v) = (v % ((281474976710656 : Nat) : Int)).toNat := by
    simp [twosComplBE, beVal, List.range_succ]
    omega
  rw [hb]
  simp only [signExtend, Except.ok.injEq, Prod.mk.injEq, Value.int.injEq]
  refine ⟨?_, by trivial⟩
  split <;> omega

theorem parse_value_round_6 (v : Int)
    (h1 : -(2 ^ 63) ≤ v) (h2 : v < 2 ^ 63) :
    parse_value 6 (twosComplBE 8 v) = .ok (.int v, 8) := by
  have hlen : (twosComplBE 8 v).length = 8 := by simp [twosComplBE]
  simp only [parse_value]
  rw [if_neg (by omega)]
  rw [List.take_of_length_le (le_of_eq hlen)]
  have hb : beVal (twosComplBE 8 v) = (v % ((18446744073709551616 : Nat) : Int)).toNat := by
    simp [twosComplBE, beVal, List.range_succ]
    omega
  rw [hb]
  simp only [signExtend, Except.ok.injEq, Prod.mk.injEq, Value.int.injEq]
  refine ⟨?_, by trivial⟩
  split <;> omega

/-- C6: the serial-type decoder of src/record.rs round-trips the full signed
range of widths 8, 16, 24, 32, 48 and 64 bits, consuming 1, 2, 3, 4, 6 and 8
bytes; but the duplicate decoder of src/main.rs diverges: for serial type 5
it consumes five bytes and returns a wrong value, and for serial type 3 it
sign-extends only up to bit 47, returning a positive value for a negative
24-bit integer. -/
theorem claim6_signed_serial_round_trip :
    ((∀ v : Int, -(2 ^ 7) ≤ v → v < 2 ^ 7 →
        parse_value 1 (twosComplBE 1 v) = .ok (.int v, 1))
      ∧ (∀ v : Int, -(2 ^ 15) ≤ v → v < 2 ^ 15 →
        parse_value 2 (twosComplBE 2 v) = .ok (.int v, 2))
      ∧ (∀ v : Int, -(2 ^ 23) ≤ v → v < 2 ^ 23 →
        parse_value 3 (twosComplBE 3 v) = .ok (.int v, 3))
      ∧ (∀ v : Int, -(2 ^ 31) ≤ v → v < 2 ^ 31 →
        parse_value 4 (twosComplBE 4 v) = .ok (.int v, 4))
      ∧ (∀ v : Int, -(2 ^ 47) ≤ v → v < 2 ^ 47 →
        parse_value 5 (twosComplBE 6 v) = .ok (.int v, 6))
      ∧ (∀ v : Int, -(2 ^ 63) ≤ v → v < 2 ^ 63 →
        parse_value 6 (twosComplBE 8 v) = .ok (.int v, 8)))
    ∧ (parse_value 5 [128, 0, 0, 0, 0, 0] = .ok (.int (-(2 ^ 47)), 6)
      ∧ main_parse_value 5 [128, 0, 0, 0, 0, 0] = .ok (.int 32768, 5)
      ∧ parse_value 3 [128, 0, 0] = .ok (.int (-(2 ^ 23)), 3)
      ∧ main_parse_value 3 [128, 0, 0] = .ok (.int 281474968322048, 3)) := by
  refine ⟨⟨fun v h1 h2 => parse_value_round_1 v h1 h2,
    fun v h1 h2 => parse_value_round_2 v h1 h2,
    fun v h1 h2 => parse_value_round_3 v h1 h2,
    fun v h1 h2 => parse_value_round_4 v h1 h2,
    fun v h1 h2 => parse_value_round_5 v h1 h2,
    fun v h1 h2 => parse_value_round_6 v h1 h2⟩, ?_, ?_, ?_, ?_⟩
  · rfl
  · rfl
  · rfl
  · rfl

/-- Witness for C6 at a concrete input: the value -1 round-trips through the
48-bit decoder of src/record.rs. -/
theorem claim6_signed_serial_round_trip_witness :
    parse_value 5 (twosComplBE 6 (-1)) = .ok (.int (-1), 6) :=
  claim6_signed_serial_round_trip.1.2.2.2.2.1 (-1) (by norm_num) (by norm_num)

/-- C8: the record codec of src/record.rs rejects any payload whose leading
varint K is smaller than its own length L, or whose serial-types section
K - L exceeds the remaining length, with a format error before decoding any
column; on the one-byte payload 0 the duplicate codec of src/main.rs instead
panics on the usize computation header_size - 1. -/
theorem claim8_parse_record_guards :
    (∀ (payload : List Nat) (k l : Nat), read_varint payload = .ok (k, l) →
      (k < l ∨ (payload.drop l).length < k - l) →
      isErr (parse_record payload) = true)
    ∧ parse_record [0]
      = .error "Record total header size K is less than the size of K varint L"
    ∧ parse_record [3, 1]
      = .error "Declared serial types section length greater than remaining data"
    ∧ main_parse_record [0] = .error .crash := by
  refine ⟨fun payload k l h hbad => ?_, ?_, ?_, ?_⟩
  · simp only [parse_record, h]
    by_cases hkl : k < l
    · rw [if_pos hkl]
      rfl
    · rw [if_neg hkl]
      have hgt : (payload.drop l).length < k - l := by
        rcases hbad with hlt | hgt
        · exact absurd hlt hkl
        · exact hgt
      rw [if_pos hgt]
      rfl
  · rfl
  · rfl
  · rfl

/-- Witness for C8 at a concrete input: the payload 0, 200 has K = 0 below
L = 1 and is rejected. -/
theorem claim8_parse_record_guards_witness :
    isErr (parse_record [0, 200]) = true :=
  claim8_parse_record_guards.1 [0, 200] 0 1 (by rfl) (by norm_num)

/-- C5: the table-leaf cell parser fails with a format error whenever the
declared payload_size exceeds the bytes remaining in the page slice (the
payload does not fit locally), and whenever it succeeds the full payload lies
in the page: the returned payload is exactly the declared number of bytes
taken at the position after the two varints, neither truncated nor
extended. -/
theorem claim5_table_leaf_cell_parse :
    (∀ (data : List Nat) (ps n1 rid n2 : Nat),
      read_varint data = .ok (ps, n1) →
      read_varint (data.drop n1) = .ok (rid, n2) →
      ((data.drop n1).drop n2).length < ps →
      isErr (tableLeafCellParse data) = true)
    ∧ (∀ (data : List Nat) (cell : TableLeafCell) (off : Nat),
      tableLeafCellParse data = .ok (cell, off) →
      ∃ n1 n2 : Nat,
        read_varint data = .ok (cell.payload_size, n1)
        ∧ read_varint (data.drop n1) = .ok (cell.rowid, n2)
        ∧ cell.payload_size ≤ ((data.drop n1).drop n2).length
        ∧ cell.payload = ((data.drop n1).drop n2).take cell.payload_size) := by
  constructor
  · intro data ps n1 rid n2 h1 h2 hshort
    simp only [tableLeafCellParse, h1, h2]
    rw [if_pos hshort]
    rfl
  · intro data cell off h
    rcases hv1 : read_varint data with e1 | p1
    · simp [tableLeafCellParse, hv1] at h
    · obtain ⟨ps, n1⟩ := p1
      rcases hv2 : read_varint (data.drop n1) with e2 | p2
      · simp [tableLeafCellParse, hv1, hv2] at h
      · obtain ⟨rid, n2⟩ := p2
        simp only [tableLeafCellParse, hv1, hv2] at h
        split at h
        · exact absurd h (by simp)
        · next hfit =>
          rw [Except.ok.injEq, Prod.mk.injEq] at h
          obtain ⟨hcell, hoff⟩ := h
          subst hcell
          exact ⟨n1, n2, rfl, hv2, Nat.le_of_not_lt hfit, rfl⟩

/-- Witness for C5 at concrete inputs: a four-byte cell with payload size 2
parses to exactly its two payload bytes, and a cell whose declared payload
size 5 exceeds the single remaining byte is rejected. -/
theorem claim5_table_leaf_cell_parse_witness :
    (∃ n1 n2 : Nat,
      read_varint [2, 5, 10, 20] = .ok ((2 : Nat), n1)
      ∧ read_varint (([2, 5, 10, 20] : List Nat).drop n1) = .ok ((5 : Nat), n2)
      ∧ (2 : Nat) ≤ ((([2, 5, 10, 20] : List Nat).drop n1).drop n2).length
      ∧ ([10, 20] : List Nat)
        = ((([2, 5, 10, 20] : List Nat).drop n1).drop n2).take 2)
    ∧ isErr (tableLeafCellParse [5, 1, 10]) = true :=
  ⟨claim5_table_leaf_cell_parse.2 [2, 5, 10, 20]
      { payload_size := 2, rowid := 5, payload := [10, 20], overflow_page := none }
      4 (by rfl),
   claim5_table_leaf_cell_parse.1 [5, 1, 10] 5 1 1 1 (by rfl) (by rfl) (by norm_num)⟩

/-- The dbinfo counting loop counts exactly the schema entries whose type is
the string table, starting from any accumulator value. -/
theorem handle_dbinfo_tables_foldl (schema : List SchemaEntry) (start : Nat) :
    schema.foldl (fun num_tables entry =>
        if entry.typ = "table" then num_tables + 1 else num_tables) start
      = start + (schema.filter (fun entry => entry.typ = "table")).length := by
  induction schema generalizing start with
  | nil => simp
  | cons e rest ih =>
    by_cases he : e.typ = "table"
    · simp [List.foldl_cons, List.filter_cons, he, ih]
      omega
    · simp [List.foldl_cons, List.filter_cons, he, ih]

/-- C4 counterexample: on a schema holding the user table apples and the
internal table sqlite_sequence, handle_dbinfo counts 2 tables while the
count described by the claim (excluding names starting with sqlite_) is 1. -/
theorem claim4_dbinfo_counterexample :
    handle_dbinfo_tables
        [{ typ := "table", tbl_name := "apples", rootpage := 2 },
         { typ := "table", tbl_name := "sqlite_sequence", rootpage := 3 },
         { typ := "index", tbl_name := "apples", rootpage := 4 }] = 2
    ∧ specUserTableCount
        [{ typ := "table", tbl_name := "apples", rootpage := 2 },
         { typ := "table", tbl_name := "sqlite_sequence", rootpage := 3 },
         { typ := "index", tbl_name := "apples", rootpage := 4 }] = 1 := by
  constructor
  · rfl
  · rfl

/-- C4 amended: the number printed by .dbinfo equals the number of schema
entries whose type is table, with no filtering on the table name, so internal
tables such as sqlite_sequence are included in the count. -/
theorem claim4_dbinfo_table_count (schema : List SchemaEntry) :
    handle_dbinfo_tables schema
      = (schema.filter (fun entry => entry.typ = "table")).length := by
  rw [handle_dbinfo_tables, handle_dbinfo_tables_foldl]
  omega

/-- The body walk returns exactly one value per serial type. -/
theorem parseBody_length {sts : List Nat} {body : List Nat} {vals : List Value}
    (h : parseBody sts body = .ok vals) : vals.length = sts.length := by
  induction sts generalizing body vals with
  | nil =>
    simp only [parseBody, Except.ok.injEq] at h
    simp [← h]
  | cons st rest ih =>
    simp only [parseBody] at h
    rcases hpv : parse_value st body with e | p
    · simp only [hpv] at h
      exact absurd h (by simp)
    · obtain ⟨v, m⟩ := p
      simp only [hpv] at h
      split at h
      · exact absurd h (by simp)
      · rcases hpb : parseBody rest (body.drop m) with e2 | vs
        · simp only [hpb] at h
          exact absurd h (by simp)
        · simp only [hpb] at h
          obtain rfl : v :: vs = vals := by simpa using h
          simp [ih hpb]

/-- A cell whose record does not start with a Text column followed by an Int
column can never match in the index-leaf loop. -/
def goodIndexCell : List Value → Bool
  | .text _ :: .int _ :: _ => true
  | _ => false

theorem cellMatch_of_not_good {target : List Nat} {record : List Value}
    (h : goodIndexCell record = false) : cellMatch target record = none := by
  cases record with
  | nil => rfl
  | cons v rest =>
    cases v with
    | text s =>
      cases rest with
      | nil => rfl
      | cons w rest2 =>
        cases w <;> first
          | rfl
          | (exact absurd h (by simp [goodIndexCell]))
    | null => rfl
    | int _ => rfl
    | float _ => rfl
    | blob _ => rfl

/-- C10: the record codec of src/record.rs returns exactly one value per
serial-type varint decoded from the header region between L and K, whatever
any table schema might declare; and the index-leaf loop silently passes over
cells whose first column is not Text or whose second is not Int: removing
those cells does not change its (always defined) result. -/
theorem claim10_record_arity_and_leaf_skip :
    (∀ (payload : List Nat) (k l : Nat) (vals : List Value),
      read_varint payload = .ok (k, l) →
      parse_record payload = .ok vals →
      ∃ sts : List Nat,
        readSerialTypes ((payload.drop l).take (k - l)) = .ok sts
        ∧ vals.length = sts.length)
    ∧ (∀ (target : List Nat) (cells : List (List Value)),
      indexLeafMatches target cells
        = indexLeafMatches target (cells.filter goodIndexCell)) := by
  constructor
  · intro payload k l vals hrv hpr
    simp only [parse_record, hrv] at hpr
    split at hpr
    · exact absurd hpr (by simp)
    · split at hpr
      · exact absurd hpr (by simp)
      · rcases hst : readSerialTypes ((payload.drop l).take (k - l)) with e | sts
        · rw [hst] at hpr
          exact absurd hpr (by simp)
        · rw [hst] at hpr
          exact ⟨sts, rfl, parseBody_length hpr⟩
  · intro target cells
    induction cells with
    | nil => rfl
    | cons rec rest ih =>
      by_cases hg : goodIndexCell rec = true
      · simp [indexLeafMatches, List.filter_cons, hg] at ih ⊢
        simp [List.filterMap_cons, ih]
      · simp only [indexLeafMatches, List.filter_cons, hg, List.filterMap_cons,
          cellMatch_of_not_good (Bool.eq_false_iff.mpr hg)]
        simp only [indexLeafMatches] at ih
        rw [if_neg (by simp [hg])]
        exact ih

/-- Witness for C10 at concrete inputs: a record with three serial types
decodes to three values, and a leaf with one malformed cell between two
matching cells behaves as if the malformed cell were absent. -/
theorem claim10_record_arity_and_leaf_skip_witness :
    (∃ sts : List Nat,
      readSerialTypes ((([4, 1, 8, 9, 200] : List Nat).drop 1).take 3) = .ok sts
      ∧ ([.int (-56), .int 0, .int 1] : List Value).length = sts.length)
    ∧ indexLeafMatches [107] [[.text [107], .int 9], [.int 3], [.text [107], .int 5]]
      = indexLeafMatches [107]
        ([[.text [107], .int 9], [.int 3], [.text [107], .int 5]].filter goodIndexCell) := by
  constructor
  · exact claim10_record_arity_and_leaf_skip.1 [4, 1, 8, 9, 200] 4 1
      [.int (-56), .int 0, .int 1] (by rfl)
      (by simp [parse_record, read_varint, readVarintGo, readSerialTypes,
        parseBody, parse_value, beVal, signExtend])
  · exact claim10_record_arity_and_leaf_skip.2 [107]
      [[.text [107], .int 9], [.int 3], [.text [107], .int 5]]

/-! ## Claim 1: COUNT(*) output

handle_count in src/main.rs prints the cell_count of the table root page
header and never walks the tree, while the spec requires the number of rows
of a full table scan (read_table_records in src/database.rs).  The two agree
when the root is a single leaf, as on the sample database, and diverge as
soon as the root is an interior page. -/

/-- A single-leaf table with four rows: the shape of the apples table of the
sample database. -/
def c1SampleLeaf : Page :=
  .tableLeaf [(1, []), (2, []), (3, []), (4, [])]

/-- A two-level table with four rows split over two leaves under an interior
root having one cell. -/
def c1DeepTree : Page :=
  .tableInterior (.cons (.tableLeaf [(1, []), (2, [])]) 2 .nil)
    (.tableLeaf [(3, []), (4, [])])

/-- C1: on the single-leaf sample table the root-page cell count printed by
handle_count equals the 4 rows of a full scan, but on a two-level tree with
the same four rows handle_count prints the interior cell count 1 while the
full table scan of src/database.rs produces 4 rows: the printed count does
not equal the full-scan row count in general. -/
theorem claim1_count_is_root_cell_count :
    rootPageCellCount c1SampleLeaf = 4
    ∧ readTableRecordsPage c1SampleLeaf
      = .ok [[.int 1], [.int 2], [.int 3], [.int 4]]
    ∧ rootPageCellCount c1DeepTree = 1
    ∧ readTableRecordsPage c1DeepTree
      = .ok [[.int 1], [.int 2], [.int 3], [.int 4]] :=
  ⟨rfl, rfl, rfl, rfl⟩

/-! ## Well-formedness predicates on parsed pages -/

mutual
/-- Every page reachable from this one belongs to a table B-tree. -/
def isTableTree : Page → Bool
  | .tableLeaf _ => true
  | .tableInterior cells rightMost => tcellsAllTable cells && isTableTree rightMost
  | .indexLeaf _ => false
  | .indexInterior _ _ => false

def tcellsAllTable : TIntCells → Bool
  | .nil => true
  | .cons child _ rest => isTableTree child && tcellsAllTable rest
end

mutual
/-- The interior-cell rowids are inclusive maxima of their left subtrees:
every row in the subtree under a cell has rowid at most the cell rowid. -/
def tableMaxima : Page → Bool
  | .tableLeaf _ => true
  | .tableInterior cells rightMost => tcellsMaxima cells && tableMaxima rightMost
  | .indexLeaf _ => true
  | .indexInterior _ _ => true

def tcellsMaxima : TIntCells → Bool
  | .nil => true
  | .cons child rowid rest =>
    (pageTableCells child).all (fun c => c.1 ≤ rowid)
      && tableMaxima child && tcellsMaxima rest
end

mutual
/-- The full table scan succeeds on every table tree and produces one row per
reachable leaf cell, in depth-first left-to-right order, with the rowid
prepended. -/
theorem readTableRecordsPage_eq (t : Page) (h : isTableTree t = true) :
    readTableRecordsPage t
      = .ok ((pageTableCells t).map (fun c => Value.int (u64ToI64 c.1) :: c.2)) := by
  cases t with
  | tableLeaf cells => rfl
  | tableInterior cells rightMost =>
    simp only [isTableTree, Bool.and_eq_true] at h
    simp only [readTableRecordsPage, readTableRecordsCells_eq cells h.1,
      readTableRecordsPage_eq rightMost h.2, pageTableCells]
    simp
  | indexLeaf cells => simp [isTableTree] at h
  | indexInterior cells rightMost => simp [isTableTree] at h

theorem readTableRecordsCells_eq (cells : TIntCells) (h : tcellsAllTable cells = true) :
    readTableRecordsCells cells
      = .ok ((tcellsTableCells cells).map (fun c => Value.int (u64ToI64 c.1) :: c.2)) := by
  cases cells with
  | nil => rfl
  | cons child rowid rest =>
    simp only [tcellsAllTable, Bool.and_eq_true] at h
    simp only [readTableRecordsCells, readTableRecordsPage_eq child h.1,
      readTableRecordsCells_eq rest h.2, tcellsTableCells]
    simp
end

/-- The minimum the source computes with unwrap_or(0) bounds every member of
the target list from below. -/
theorem min_getD_le {S : List Nat} {s : Nat} (hs : s ∈ S) :
    (S.min?).getD 0 ≤ s := by
  rcases hmin : S.min? with _ | m
  · rw [List.min?_eq_none_iff] at hmin
    subst hmin
    cases hs
  · have hall := (List.le_min?_iff (fun a b c => le_min_iff) hmin
      (x := m)).mp (le_refl m)
    simpa [hmin] using hall s hs

mutual
/-- The rowid-set fetch on a table tree whose interior rowids are inclusive
maxima returns exactly the filter of the full scan by membership in the
target set: the pruning by minimum target loses no selected row. -/
theorem readByRowidsPage_eq (S : List Nat) (t : Page)
    (ht : isTableTree t = true) (hm : tableMaxima t = true) :
    readByRowidsPage S t
      = .ok (((pageTableCells t).filter (fun c => S.contains c.1)).map
          (fun c => Value.int (u64ToI64 c.1) :: c.2)) := by
  cases t with
  | tableLeaf cells => rfl
  | tableInterior cells rightMost =>
    simp only [isTableTree, Bool.and_eq_true] at ht
    simp only [tableMaxima, Bool.and_eq_true] at hm
    simp only [readByRowidsPage, readByRowidsCells_eq S cells ht.1 hm.1,
      readByRowidsPage_eq S rightMost ht.2 hm.2, pageTableCells]
    simp
  | indexLeaf cells => simp [isTableTree] at ht
  | indexInterior cells rightMost => simp [isTableTree] at ht

theorem readByRowidsCells_eq (S : List Nat) (cells : TIntCells)
    (ht : tcellsAllTable cells = true) (hm : tcellsMaxima cells = true) :
    readByRowidsCells S ((S.min?).getD 0) cells
      = .ok (((tcellsTableCells cells).filter (fun c => S.contains c.1)).map
          (fun c => Value.int (u64ToI64 c.1) :: c.2)) := by
  cases cells with
  | nil => rfl
  | cons child rowid rest =>
    simp only [tcellsAllTable, Bool.and_eq_true] at ht
    simp only [tcellsMaxima, Bool.and_eq_true, List.all_eq_true] at hm
    by_cases hdesc : (S.min?).getD 0 ≤ rowid
    · simp only [readByRowidsCells, if_pos hdesc,
        readByRowidsPage_eq S child ht.1 hm.1.2,
        readByRowidsCells_eq S rest ht.2 hm.2, tcellsTableCells]
      simp
    · simp only [readByRowidsCells, if_neg hdesc,
        readByRowidsCells_eq S rest ht.2 hm.2, tcellsTableCells]
      have hempty : (pageTableCells child).filter (fun c => S.contains c.1) = [] := by
        rw [List.filter_eq_nil_iff]
        intro c hc
        have hle : c.1 ≤ rowid := by simpa using hm.1.1 c hc
        intro hcon
        have hmem : c.1 ∈ S := by
          simpa [List.contains, List.elem_eq_mem] using hcon
        have := min_getD_le hmem
        omega
      rw [List.filter_append, hempty, List.nil_append]
end

/-- C2: on a table B-tree whose interior rowids are inclusive maxima of their
left subtrees and whose leaves hold each rowid at most once, for a non-empty
set S of target rowids the rowid-set fetch returns exactly the rows of the
full scan whose rowid lies in S, in particular no selected row is lost to the
minimum-target pruning and no other row is emitted, and the number of rows
returned is at most the size of S. -/
theorem claim2_rowid_set_fetch (t : Page) (S : List Nat)
    (ht : isTableTree t = true) (hm : tableMaxima t = true)
    (hnodup : ((pageTableCells t).map (fun c => c.1)).Nodup)
    (hS : S ≠ []) (hSnodup : S.Nodup) :
    read_table_records_by_rowids t S
      = .ok (((pageTableCells t).filter (fun c => S.contains c.1)).map
          (fun c => Value.int (u64ToI64 c.1) :: c.2))
    ∧ readTableRecordsPage t
      = .ok ((pageTableCells t).map (fun c => Value.int (u64ToI64 c.1) :: c.2))
    ∧ (∀ rows, read_table_records_by_rowids t S = .ok rows →
        rows.length ≤ S.length) := by
  have hmain : read_table_records_by_rowids t S
      = .ok (((pageTableCells t).filter (fun c => S.contains c.1)).map
          (fun c => Value.int (u64ToI64 c.1) :: c.2)) := by
    rw [read_table_records_by_rowids, if_neg (by simpa using hS)]
    exact readByRowidsPage_eq S t ht hm
  refine ⟨hmain, readTableRecordsPage_eq t ht, fun rows hrows => ?_⟩
  rw [hmain] at hrows
  obtain rfl := Except.ok.inj hrows
  rw [List.length_map]
  have hsub : List.Sublist
      (((pageTableCells t).filter (fun c => S.contains c.1)).map (fun c => c.1))
      ((pageTableCells t).map (fun c => c.1)) :=
    (List.filter_sublist _).map _
  have hnd : (((pageTableCells t).filter (fun c => S.contains c.1)).map
      (fun c => c.1)).Nodup := hnodup.sublist hsub
  have hsubset : ∀ x ∈ ((pageTableCells t).filter (fun c => S.contains c.1)).map
      (fun c => c.1), x ∈ S := by
    intro x hx
    obtain ⟨c, hc, rfl⟩ := List.mem_map.mp hx
    have := List.mem_filter.mp hc
    simpa [List.contains, List.elem_eq_mem] using this.2
  have hperm := List.subperm_of_subset hnd hsubset
  have hlen := hperm.length_le
  simpa using hlen

/-- A concrete two-level tree for the C2 witness. -/
def c2Tree : Page :=
  .tableInterior
    (.cons (.tableLeaf [(1, [.null]), (2, [.null])]) 2
      (.cons (.tableLeaf [(3, [.null]), (5, [.null])]) 5 .nil))
    (.tableLeaf [(7, [.null]), (9, [.null])])

/-- Witness for C2 at a concrete input: fetching rowids 5 and 1 from a
three-leaf tree returns exactly those two rows, within the bound 2. -/
theorem claim2_rowid_set_fetch_witness :
    read_table_records_by_rowids c2Tree [5, 1]
      = .ok (((pageTableCells c2Tree).filter
            (fun c => (([5, 1] : List Nat)).contains c.1)).map
          (fun c => Value.int (u64ToI64 c.1) :: c.2))
    ∧ (∀ rows, read_table_records_by_rowids c2Tree [5, 1] = .ok rows →
        rows.length ≤ ([5, 1] : List Nat).length) := by
  have h := claim2_rowid_set_fetch c2Tree [5, 1] (by rfl) (by rfl)
    (by decide) (by simp) (by decide)
  exact ⟨h.1, h.2.2⟩

/-! ## Claim 3: index equality search -/

/-- The key of an index record: its first column when that column is Text. -/
def keyOf : List Value → Option (List Nat)
  | .text k :: _ => some k
  | _ => none

mutual
/-- All index-leaf cell records reachable from a page, depth first, left to
right. -/
def allIndexCells : Page → List (List Value)
  | .indexLeaf cells => cells
  | .indexInterior cells rightMost => icellsIndexCells cells ++ allIndexCells rightMost
  | .tableLeaf _ => []
  | .tableInterior _ _ => []

def icellsIndexCells : IIntCells → List (List Value)
  | .nil => []
  | .cons child _ rest => allIndexCells child ++ icellsIndexCells rest
end

mutual
/-- The index tree is well formed and ordered: every page is an index page,
every leaf cell starts with a Text key followed by an Int rowid, every
interior cell carries a Text key that is an inclusive upper bound (in byte
order) for every key in its left subtree. -/
def indexOrdered : Page → Bool
  | .indexLeaf cells => cells.all goodIndexCell
  | .indexInterior cells rightMost => iCellsOrdered cells && indexOrdered rightMost
  | .tableLeaf _ => false
  | .tableInterior _ _ => false

def iCellsOrdered : IIntCells → Bool
  | .nil => true
  | .cons child record rest =>
    (match keyOf record with
      | some k => (allIndexCells child).all (fun rc =>
          match keyOf rc with
          | some k2 => strLe k2 k
          | none => false)
      | none => false)
      && indexOrdered child && iCellsOrdered rest
end

theorem shouldDescend_of_keyOf {target k : List Nat} {record : List Value}
    (h : keyOf record = some k) : shouldDescend target record = strLe target k := by
  cases record with
  | nil => simp [keyOf] at h
  | cons v rest =>
    cases v with
    | text s =>
      obtain rfl : s = k := by simpa [keyOf] using h
      rfl
    | null => simp [keyOf] at h
    | int _ => simp [keyOf] at h
    | float _ => simp [keyOf] at h
    | blob _ => simp [keyOf] at h

/-- A record matching the target has the target as its key. -/
theorem keyOf_of_cellMatch {target : List Nat} {record : List Value} {r : Nat}
    (h : cellMatch target record = some r) : keyOf record = some target := by
  cases record with
  | nil => simp [cellMatch] at h
  | cons v rest =>
    cases v with
    | text s =>
      cases rest with
      | nil => simp [cellMatch] at h
      | cons w rest2 =>
        cases w with
        | int i =>
          simp only [cellMatch] at h
          split at h
          · next heq => simp [keyOf, heq]
          · exact absurd h (by simp)
        | null => simp [cellMatch] at h
        | text _ => simp [cellMatch] at h
        | float _ => simp [cellMatch] at h
        | blob _ => simp [cellMatch] at h
    | null => simp [cellMatch] at h
    | int _ => simp [cellMatch] at h
    | float _ => simp [cellMatch] at h
    | blob _ => simp [cellMatch] at h

mutual
/-- On an ordered index tree the equality search visits enough children to
collect the rowid of every matching leaf cell: it returns, before sorting,
exactly the matches of all leaf cells in depth-first order. -/
theorem collectIndexPage_eq (target : List Nat) (t : Page)
    (h : indexOrdered t = true) :
    collectIndexPage target t
      = .ok ((allIndexCells t).filterMap (cellMatch target)) := by
  cases t with
  | indexLeaf cells => rfl
  | indexInterior cells rightMost =>
    simp only [indexOrdered, Bool.and_eq_true] at h
    simp only [collectIndexPage, collectIndexCells_eq target cells h.1,
      collectIndexPage_eq target rightMost h.2, allIndexCells]
    simp
  | tableLeaf cells => simp [indexOrdered] at h
  | tableInterior cells rightMost => simp [indexOrdered] at h

theorem collectIndexCells_eq (target : List Nat) (cells : IIntCells)
    (h : iCellsOrdered cells = true) :
    collectIndexCells target cells
      = .ok ((icellsIndexCells cells).filterMap (cellMatch target)) := by
  cases cells with
  | nil => rfl
  | cons child record rest =>
    simp only [iCellsOrdered, Bool.and_eq_true] at h
    obtain ⟨⟨hkey, hchild⟩, hrest⟩ := h
    rcases hk : keyOf record with _ | k
    · rw [hk] at hkey
      exact absurd hkey (by simp)
    · rw [hk] at hkey
      by_cases hd : shouldDescend target record = true
      · simp only [collectIndexCells, if_pos hd,
          collectIndexCells_eq target rest hrest,
          collectIndexPage_eq target child hchild, icellsIndexCells]
        simp
      · simp only [collectIndexCells, if_neg hd,
          collectIndexCells_eq target rest hrest, icellsIndexCells]
        have hempty : (allIndexCells child).filterMap (cellMatch target) = [] := by
          rw [List.filterMap_eq_nil_iff]
          intro rc hrc
          rcases hmatch : cellMatch target rc with _ | r
          · rfl
          · exfalso
            have hkc := keyOf_of_cellMatch hmatch
            have hb := List.all_eq_true.mp hkey rc hrc
            rw [hkc] at hb
            simp only at hb
            rw [shouldDescend_of_keyOf hk] at hd
            exact hd (by simpa using hb)
        rw [List.filterMap_append, hempty, List.nil_append]
end

/-- C3: on an index B-tree ordered ascending by key under binary collation,
the equality search returns the rowid of every leaf cell whose first payload
column equals the target key, the returned list is sorted ascending, and it
is a permutation of the matches of all leaf cells; the traversal descends
into exactly the children whose interior key k satisfies target at most k
plus the right-most child, and that pruning loses no match. -/
theorem claim3_collect_index_rowids (t : Page) (target : List Nat)
    (h : indexOrdered t = true) :
    collect_index_rowids t target
      = .ok (((allIndexCells t).filterMap (cellMatch target)).insertionSort (· ≤ ·))
    ∧ (∀ l, collect_index_rowids t target = .ok l →
        l.Sorted (· ≤ ·)
        ∧ (∀ rec ∈ allIndexCells t, ∀ r, cellMatch target rec = some r → r ∈ l)
        ∧ l.Perm ((allIndexCells t).filterMap (cellMatch target))) := by
  have hmain : collect_index_rowids t target
      = .ok (((allIndexCells t).filterMap (cellMatch target)).insertionSort (· ≤ ·)) := by
    rw [collect_index_rowids, collectIndexPage_eq target t h]
  refine ⟨hmain, fun l hl => ?_⟩
  rw [hmain] at hl
  obtain rfl := (Except.ok.inj hl).symm
  refine ⟨List.sorted_insertionSort _ _, fun rec hrec r hr => ?_,
    List.perm_insertionSort _ _⟩
  have hmem : r ∈ (allIndexCells t).filterMap (cellMatch target) :=
    List.mem_filterMap.mpr ⟨rec, hrec, hr⟩
  exact (List.perm_insertionSort (· ≤ ·) _).mem_iff.mpr hmem

/-- A concrete two-level index tree for the C3 witness: one interior cell
with key b over a leaf holding keys a and b, and a right-most leaf holding
keys b and c. -/
def c3Tree : Page :=
  .indexInterior
    (.cons (.indexLeaf [[.text [97], .int 1], [.text [98], .int 7]])
      [.text [98], .int 7] .nil)
    (.indexLeaf [[.text [98], .int 3], [.text [99], .int 4]])

/-- Witness for C3 at a concrete input: searching key b returns the two
matching rowids 7 and 3 sorted ascending as 3, 7. -/
theorem claim3_collect_index_rowids_witness :
    collect_index_rowids c3Tree [98]
      = .ok (((allIndexCells c3Tree).filterMap (cellMatch [98])).insertionSort (· ≤ ·))
    ∧ collect_index_rowids c3Tree [98] = .ok [3, 7] := by
  have h := claim3_collect_index_rowids c3Tree [98] (by rfl)
  exact ⟨h.1, by rw [h.1]; rfl⟩

/-! ## Claim 9: leaf cells with fewer than two columns -/

mutual
/-- Every page reachable from this one belongs to an index B-tree. -/
def isIndexTree : Page → Bool
  | .indexLeaf _ => true
  | .indexInterior cells rightMost => icellsAllIndex cells && isIndexTree rightMost
  | .tableLeaf _ => false
  | .tableInterior _ _ => false

def icellsAllIndex : IIntCells → Bool
  | .nil => true
  | .cons child _ rest => isIndexTree child && icellsAllIndex rest
end

mutual
/-- Remove from every index leaf the cells whose decoded record has fewer
than two columns. -/
def dropThinLeafCells : Page → Page
  | .indexLeaf cells => .indexLeaf (cells.filter (fun record => 2 ≤ record.length))
  | .indexInterior cells rightMost =>
    .indexInterior (icellsDropThin cells) (dropThinLeafCells rightMost)
  | .tableLeaf cells => .tableLeaf cells
  | .tableInterior cells rightMost => .tableInterior cells rightMost

def icellsDropThin : IIntCells → IIntCells
  | .nil => .nil
  | .cons child record rest =>
    .cons (dropThinLeafCells child) record (icellsDropThin rest)
end

/-- A record with fewer than two columns never matches. -/
theorem cellMatch_of_short {target : List Nat} {record : List Value}
    (h : record.length < 2) : cellMatch target record = none := by
  cases record with
  | nil => rfl
  | cons v rest =>
    cases rest with
    | nil => cases v <;> rfl
    | cons w rest2 => simp only [List.length_cons] at h; omega

/-- Filtering out elements on which the function returns none does not change
a filterMap. -/
theorem filterMap_filter_of_none {α β : Type} {f : α → Option β} {p : α → Bool}
    (h : ∀ a, p a = false → f a = none) (l : List α) :
    (l.filter p).filterMap f = l.filterMap f := by
  induction l with
  | nil => rfl
  | cons a rest ih =>
    by_cases hp : p a = true
    · simp [List.filter_cons, hp, List.filterMap_cons, ih]
    · have hnone := h a (Bool.eq_false_iff.mpr hp)
      simp [List.filter_cons, hp, List.filterMap_cons, hnone, ih]

mutual
/-- Removing arity-deficient leaf cells does not change the search result on
any page: such cells are silently skipped. -/
theorem collectIndexPage_dropThin (target : List Nat) (t : Page) :
    collectIndexPage target (dropThinLeafCells t) = collectIndexPage target t := by
  cases t with
  | indexLeaf cells =>
    simp only [dropThinLeafCells, collectIndexPage, indexLeafMatches]
    rw [filterMap_filter_of_none
      (fun record hshort => cellMatch_of_short (by
        rcases record with _ | ⟨v, rest⟩
        · simp
        · rcases rest with _ | ⟨w, rest2⟩
          · simp
          · simp at hshort)) cells]
  | indexInterior cells rightMost =>
    simp only [dropThinLeafCells, collectIndexPage,
      collectIndexCells_dropThin target cells,
      collectIndexPage_dropThin target rightMost]
  | tableLeaf cells => rfl
  | tableInterior cells rightMost => rfl

theorem collectIndexCells_dropThin (target : List Nat) (cells : IIntCells) :
    collectIndexCells target (icellsDropThin cells) = collectIndexCells target cells := by
  cases cells with
  | nil => rfl
  | cons child record rest =>
    simp only [icellsDropThin, collectIndexCells,
      collectIndexPage_dropThin target child,
      collectIndexCells_dropThin target rest]
end

mutual
/-- The search never fails on an index tree. -/
theorem collectIndexPage_isOk (target : List Nat) (t : Page)
    (h : isIndexTree t = true) :
    ∃ l, collectIndexPage target t = .ok l := by
  cases t with
  | indexLeaf cells => exact ⟨_, rfl⟩
  | indexInterior cells rightMost =>
    simp only [isIndexTree, Bool.and_eq_true] at h
    obtain ⟨a, ha⟩ := collectIndexCells_isOk target cells h.1
    obtain ⟨b, hb⟩ := collectIndexPage_isOk target rightMost h.2
    exact ⟨a ++ b, by simp only [collectIndexPage, ha, hb]⟩
  | tableLeaf cells => simp [isIndexTree] at h
  | tableInterior cells rightMost => simp [isIndexTree] at h

theorem collectIndexCells_isOk (target : List Nat) (cells : IIntCells)
    (h : icellsAllIndex cells = true) :
    ∃ l, collectIndexCells target cells = .ok l := by
  cases cells with
  | nil => exact ⟨[], rfl⟩
  | cons child record rest =>
    simp only [icellsAllIndex, Bool.and_eq_true] at h
    obtain ⟨a, ha⟩ := collectIndexPage_isOk target child h.1
    obtain ⟨b, hb⟩ := collectIndexCells_isOk target rest h.2
    by_cases hd : shouldDescend target record = true
    · exact ⟨a ++ b, by simp only [collectIndexCells, if_pos hd, ha, hb]⟩
    · exact ⟨b, by simp only [collectIndexCells, if_neg hd, hb]⟩
end

/-- A one-leaf index tree holding a single cell whose record has only one
column. -/
def c9Tree : Page := .indexLeaf [[.int 7]]

/-- C9 counterexample: searching an index tree that contains a leaf cell with
fewer than two columns succeeds with an empty result instead of returning an
error: the cell is skipped, not fatal. -/
theorem claim9_arity_counterexample :
    collect_index_rowids c9Tree [107] = .ok [] := rfl

/-- C9 amended: a leaf cell whose decoded record has fewer than two columns
is silently skipped by the index equality search: removing all such cells
changes nothing, and on an index tree the search always returns a result
rather than an error. -/
theorem claim9_thin_cells_skipped (t : Page) (target : List Nat) :
    collect_index_rowids (dropThinLeafCells t) target
      = collect_index_rowids t target
    ∧ (isIndexTree t = true → ∃ l, collect_index_rowids t target = .ok l) := by
  constructor
  · rw [collect_index_rowids, collect_index_rowids,
      collectIndexPage_dropThin target t]
  · intro h
    obtain ⟨l, hl⟩ := collectIndexPage_isOk target t h
    exact ⟨l.insertionSort (· ≤ ·), by rw [collect_index_rowids, hl]⟩

/-- Witness for C9 amended at a concrete input. -/
theorem claim9_thin_cells_skipped_witness :
    collect_index_rowids (dropThinLeafCells c9Tree) [107]
      = collect_index_rowids c9Tree [107]
    ∧ ∃ l, collect_index_rowids c9Tree [107] = .ok l :=
  ⟨(claim9_thin_cells_skipped c9Tree [107]).1,
   (claim9_thin_cells_skipped c9Tree [107]).2 (by rfl)⟩
